import Mathlib

/-!
A shallow embedding of the reference-resolution and chunk-materialization
engine of the repository: the component loader (`component_loader.py`), the
chunk streamer (`chunk_streamer.py`) and the call-tree logger
(`tree_logger.py`).  Python strings are modelled as `String` over their
characters (ASCII semantics for case folding and digits — the alphabet of the
id grammar and of all the data involved), Python sets as `Finset String`, the
component directory and the output directory as association lists, and the
two mutually recursive build procedures as one structurally recursive
function over an explicit fuel parameter; a fuel amount computed from the
store is proved sufficient below, which settles termination.
-/

/-- Whitespace as Python `str.strip` and `\s` treat it (ASCII range). -/
def pyIsSpace (c : Char) : Bool :=
  c = ' ' || c = '\t' || c = '\n' || c = '\r' || c = '\x0b' || c = '\x0c'

/-- Python `str.strip()` on the characters of a line. -/
def pyStripL (l : List Char) : List Char :=
  ((l.dropWhile pyIsSpace).reverse.dropWhile pyIsSpace).reverse

/-- Python `str.strip()`. -/
def pyStrip (s : String) : String := String.mk (pyStripL s.toList)

/-- Helper for `splitLines`: `acc` holds the current line reversed. -/
def splitLinesAux : List Char → List Char → List (List Char)
  | [], acc => if acc.isEmpty then [] else [acc.reverse]
  | '\n' :: rest, acc => acc.reverse :: splitLinesAux rest []
  | c :: rest, acc => splitLinesAux rest (c :: acc)

/-- Python `str.splitlines()` for `\n`-separated text (the only line
terminator occurring in the modelled data): each `\n` ends a line, and a
final fragment without a terminator is a line of its own. -/
def splitLines (s : String) : List String :=
  (splitLinesAux s.toList []).map String.mk

/-- The component type codes of the id grammar. -/
def typeCodes : List (List Char) :=
  [['M','R','N'], ['T','R','N'], ['P','R','N'], ['C','R','N'],
   ['D','R','N'], ['S','R','N'], ['I','R','R'], ['M','R','R'], ['I','R','N']]

/-- Matches the id grammar `(MRN|TRN|PRN|CRN|DRN|SRN|IRR|MRR|IRN)\d{5}` at
the head of `l`, case-insensitively, returning the matched eight characters
normalized to upper case (the base id); whatever follows the five digits is
ignored, as `re.match` ignores it.  This is both the id part of the directive
regex of `ChunkStreamer._embed_all_nested` (whose optional `_suffix` group is
split off again by `full_id.split("_")[0]`) and the normalization regex of
`ComponentLoader.get`. -/
def parseId : List Char → Option (List Char)
  | c1 :: c2 :: c3 :: d1 :: d2 :: d3 :: d4 :: d5 :: _ =>
    let code := [c1.toUpper, c2.toUpper, c3.toUpper]
    if typeCodes.contains code && d1.isDigit && d2.isDigit && d3.isDigit
        && d4.isDigit && d5.isDigit then
      some (code ++ [d1, d2, d3, d4, d5])
    else none
  | _ => none

/-- One directive line of `ChunkStreamer._embed_all_nested`: the source runs
`re.match(r"^(\s*)USE\s+((mrn|trn|prn|crn|drn|srn|irr|mrr|irn)\d{5}(?:_[a-zA-Z0-9_]+)?)",
line.strip(), re.IGNORECASE)` and keeps `group(1)` as the indentation and
`full_id.split("_")[0]`, upper-cased, as the component id.  Note the regex is
matched against the *stripped* line, so `group(1)` is its leading whitespace
after stripping.  Returns `(indentation, component id)`. -/
def parseDirective (line : String) : Option (String × String) :=
  let l0 := pyStripL line.toList
  let ind := l0.takeWhile pyIsSpace
  match l0.dropWhile pyIsSpace with
  | u :: s :: e :: rest =>
    if u.toUpper = 'U' && s.toUpper = 'S' && e.toUpper = 'E' then
      match rest with
      | c :: _ =>
        if pyIsSpace c then
          (parseId (rest.dropWhile pyIsSpace)).map
            (fun b => (String.mk ind, String.mk b))
        else none
      | [] => none
    else none
  | _ => none

/-- The component directory: base id ↦ file content. -/
abbrev Store := List (String × String)

/-- First-match association lookup (a directory has one file per name). -/
def lookupStore : List (String × String) → String → Option String
  | [], _ => none
  | (k, v) :: rest, key => if k = key then some v else lookupStore rest key

/-- `ComponentLoader.get`: normalize the id to its eight-character base via
`re.match(r"^(MRN|TRN|PRN|CRN|DRN|SRN|IRR|MRR|IRN)\d{5}", component_id,
re.IGNORECASE)` — an id that fails the pattern raises — then read
`<base>.txt`, raising when the file is absent.  `none` models a raised
exception. -/
def loaderGet (store : Store) (cid : String) : Option String :=
  match parseId cid.toList with
  | none => none
  | some b => lookupStore store (String.mk b)

/-- Python `comp_id.lower().startswith("irn")`. -/
def isIrnId (s : String) : Bool :=
  match s.toList with
  | a :: b :: c :: _ => a.toLower = 'i' && b.toLower = 'r' && c.toLower = 'n'
  | _ => false

/-- `ChunkStreamer._add_to_call_tree`: an insertion-ordered parent → children
map; a child is appended to a parent's list once. -/
def add_to_call_tree : List (String × List String) → String → String → List (String × List String)
  | [], p, c => [(p, [c])]
  | (q, cs) :: rest, p, c =>
    if q = p then (q, if cs.contains c then cs else cs ++ [c]) :: rest
    else (q, cs) :: add_to_call_tree rest p c

/-- Writing `<root>.txt` into the output directory, overwriting any previous
artifact of the same name. -/
def writeArtifact : List (String × String) → String → String → List (String × String)
  | [], path, content => [(path, content)]
  | (p, c) :: rest, path, content =>
    if p = path then (p, content) :: rest
    else (p, c) :: writeArtifact rest path content

/-- The process-wide mutable state of a `ChunkStreamer` instance plus the
output directory it writes into. -/
structure StreamerState where
  visited_irns : Finset String
  call_tree : List (String × List String)
  artifacts : List (String × String)
deriving DecidableEq

/-- A fresh `ChunkStreamer` over an empty output directory. -/
def initState : StreamerState := ⟨∅, [], []⟩

/-- A pending call of one of the two mutually recursive procedures:
`stream st irnId` is `stream_irn`, `embed st lines parent visited` is
`_embed_all_nested` applied to the already split lines of a text. -/
inductive Job where
  | stream (st : StreamerState) (irnId : String)
  | embed (st : StreamerState) (lines : List String) (parent : String)
      (visited : Finset String)
deriving DecidableEq

/-- The value a `Job` returns alongside the updated state: `stream` returns
the chunk path or `None`; `embed` returns the (shared, mutated) visited set
and the produced output lines. -/
inductive JobResult where
  | stream (st : StreamerState) (res : Option String)
  | embed (st : StreamerState) (visited : Finset String) (out : List String)
deriving DecidableEq

/-- `ChunkStreamer.stream_irn` and `ChunkStreamer._embed_all_nested` as one
function, structurally recursive on fuel (`none` = fuel exhausted; the bound
`fuelBound` below is proved sufficient).  Mirrors the source line by line:
`stream` skips an already processed root, marks it processed *before*
fetching it, returns `None` on a fetch failure, and otherwise frames the
embedded output and writes the artifact; `embed` walks the lines, records
every directive target in the call tree, emits a duplicate marker for an
already visited target, a missing marker when the fetch raises, and otherwise
the target's stripped raw lines framed by start/end markers followed either
by a separate top-level build plus placeholder (nested entry) or by the
recursive expansion of the target's text. -/
def run (store : Store) : Nat → Job → Option JobResult
  | 0, _ => none
  | F + 1, .stream st irnId =>
    if irnId ∈ st.visited_irns then some (.stream st none)
    else
      let st1 := { st with visited_irns := insert irnId st.visited_irns }
      match loaderGet store irnId with
      | none => some (.stream st1 none)
      | some txt =>
        match run store F (.embed st1 (splitLines txt) irnId ∅) with
        | some (.embed st2 _ out) =>
          let lines := ("# Start of IRN: " ++ irnId) :: out ++ ["# End of IRN: " ++ irnId]
          let path := irnId ++ ".txt"
          some (.stream
            { st2 with artifacts := writeArtifact st2.artifacts path (String.intercalate "\n" lines) }
            (some path))
        | _ => none
  | _ + 1, .embed st [] _ visited => some (.embed st visited [])
  | F + 1, .embed st (line :: rest) parent visited =>
    match parseDirective line with
    | none =>
      match run store F (.embed st rest parent visited) with
      | some (.embed st1 v1 out) => some (.embed st1 v1 (line :: out))
      | _ => none
    | some (ind, comp) =>
      let st := { st with call_tree := add_to_call_tree st.call_tree parent comp }
      if comp ∈ visited then
        match run store F (.embed st rest parent visited) with
        | some (.embed st1 v1 out) =>
          some (.embed st1 v1 ((ind ++ "# [Skipped duplicate: " ++ comp ++ "]") :: out))
        | _ => none
      else
        let visited := insert comp visited
        match loaderGet store comp with
        | none =>
          match run store F (.embed st rest parent visited) with
          | some (.embed st1 v1 out) =>
            some (.embed st1 v1 ((ind ++ "# [Missing component: " ++ comp ++ "]") :: out))
          | _ => none
        | some compText =>
          let head := (ind ++ "# Start of " ++ comp) ::
            (splitLines (pyStrip compText)).map (fun l => ind ++ l) ++
            [ind ++ "# End of " ++ comp]
          if isIrnId comp ∧ comp ∉ st.visited_irns then
            match run store F (.stream st comp) with
            | some (.stream st1 _) =>
              match run store F (.embed st1 rest parent visited) with
              | some (.embed st2 v2 out) =>
                some (.embed st2 v2
                  (head ++ [ind ++ "# [Nested IRN " ++ comp ++ " streamed separately]"] ++ out))
              | _ => none
            | _ => none
          else
            match run store F (.embed st (splitLines compText) comp visited) with
            | some (.embed st1 v1 nested) =>
              match run store F (.embed st1 rest parent v1) with
              | some (.embed st2 v2 out) =>
                some (.embed st2 v2 (head ++ nested.map (fun l => ind ++ l) ++ out))
              | _ => none
            | _ => none

/-- `ChunkStreamer.stream_irn` proper: run the `stream` job and project. -/
def stream_irn (store : Store) (F : Nat) (st : StreamerState) (irnId : String) :
    Option (StreamerState × Option String) :=
  match run store F (.stream st irnId) with
  | some (.stream st1 r) => some (st1, r)
  | _ => none

/-- `ChunkStreamer._embed_all_nested` proper. -/
def embed_all_nested (store : Store) (F : Nat) (st : StreamerState) (text : String)
    (parent : String) (visited : Finset String) :
    Option (StreamerState × Finset String × List String) :=
  match run store F (.embed st (splitLines text) parent visited) with
  | some (.embed st1 v1 out) => some (st1, v1, out)
  | _ => none

/-- The ids the store holds. -/
def storeIds (store : Store) : Finset String := (store.map Prod.fst).toFinset

/-- An upper bound on the number of lines of any one stored text. -/
def maxLines (store : Store) : Nat :=
  store.foldr (fun p m => max (splitLines p.2).length m) 0

/-- Strictly dominates the line count of every stored text. -/
def fuelK (store : Store) : Nat := maxLines store + 1

/-- Fuel needed by a `stream` job whose state has processed the roots `A`. -/
def measS (store : Store) (A : Finset String) : Nat :=
  (storeIds store \ A).card * ((storeIds store).card + 1) * fuelK store

/-- Fuel needed by an `embed` job over `lines` with per-chunk visited set `v`
in a state that has processed the roots `A`. -/
def measE (store : Store) (A v : Finset String) (lines : List String) : Nat :=
  ((storeIds store \ A).card * ((storeIds store).card + 1) + (storeIds store \ v).card)
    * fuelK store + lines.length

/-- Fuel sufficient for any build over `store`, from any state. -/
def fuelBound (store : Store) : Nat :=
  ((storeIds store).card + 1) * ((storeIds store).card + 1) * fuelK store + 1

/-- A top-level chunk build for `rootId` over `store`, from a fresh streamer. -/
def buildChunk (store : Store) (rootId : String) : Option JobResult :=
  run store (fuelBound store) (.stream initState rootId)

/-- The lines of the artifact the top-level build of `rootId` wrote for it. -/
def chunkLines (store : Store) (rootId : String) : Option (List String) :=
  match buildChunk store rootId with
  | some (.stream st _) => (lookupStore st.artifacts (rootId ++ ".txt")).map splitLines
  | _ => none

/-- The whole output directory after the top-level build of `rootId`. -/
def builtArtifacts (store : Store) (rootId : String) : Option (List (String × String)) :=
  match buildChunk store rootId with
  | some (.stream st _) => some st.artifacts
  | _ => none

/-- Scenario A store: `IRN00001` references the absent `MRN10001`. -/
def storeA : Store := [("IRN00001", "line1\nUSE MRN10001\nline2")]

/-- Scenario B store: a simple inline of `MRN10001` into `IRN00001`. -/
def storeB : Store := [("IRN00001", "a\nUSE MRN10001\nb"), ("MRN10001", "x")]

/-- Scenario C store: entry `IRN00001` references entry `IRN00002`. -/
def storeC : Store := [("IRN00001", "USE IRN00002"), ("IRN00002", "NESTEDBODY")]

/-- Indentation store: the directive line carries two spaces of indentation. -/
def storeInd : Store := [("IRN00001", "a\n  USE MRN10001\nb"), ("MRN10001", "x")]

/-- List-level "is a leading segment of" (first argument the pattern). -/
def leadsList : List Char → List Char → Bool
  | [], _ => true
  | _ :: _, [] => false
  | a :: as, b :: bs => a = b && leadsList as bs

/-- Python `str.startswith`. -/
def strStartsWith (s pat : String) : Bool := leadsList pat.toList s.toList

/-- Python `str.endswith`. -/
def strEndsWith (s pat : String) : Bool := leadsList pat.toList.reverse s.toList.reverse

/-- Python `filename.replace(".txt", "")`: drop every occurrence of `.txt`,
scanning left to right. -/
def removeTxtAll : List Char → List Char
  | '.' :: 't' :: 'x' :: 't' :: rest => removeTxtAll rest
  | c :: rest => c :: removeTxtAll rest
  | [] => []

/-- String form of `removeTxtAll`. -/
def replaceTxt (s : String) : String := String.mk (removeTxtAll s.toList)

/-- Python `\w` over the ASCII data involved. -/
def isWordChar (c : Char) : Bool := c.isAlphanum || c = '_'

/-- The part of `re.findall(r"USE\s+(IRN\d{5}(?:_\w+)?)", content)` after a
literal `USE` was found: `\s+IRN\d{5}` then a greedy optional `_\w+`, all
case-sensitive.  Returns the captured id and the characters after the match,
or `none` when this occurrence of `USE` starts no match. -/
def matchIrnRef (l : List Char) : Option (List Char × List Char) :=
  match l with
  | c :: _ =>
    if pyIsSpace c then
      match l.dropWhile pyIsSpace with
      | 'I' :: 'R' :: 'N' :: d1 :: d2 :: d3 :: d4 :: d5 :: rest =>
        if d1.isDigit && d2.isDigit && d3.isDigit && d4.isDigit && d5.isDigit then
          let base := ['I', 'R', 'N', d1, d2, d3, d4, d5]
          match rest with
          | '_' :: w :: wr =>
            if isWordChar w then
              some (base ++ '_' :: w :: wr.takeWhile isWordChar, wr.dropWhile isWordChar)
            else some (base, rest)
          | _ => some (base, rest)
        else none
      | _ => none
    else none
  | [] => none

/-- Left-to-right non-overlapping scan of `re.findall`; every step consumes at
least one character, so the fuel `length + 1` used below never runs out. -/
def scanUsedAux : Nat → List Char → List (List Char)
  | 0, _ => []
  | _ + 1, [] => []
  | F + 1, 'U' :: 'S' :: 'E' :: rest =>
    match matchIrnRef rest with
    | some (id, remaining) => id :: scanUsedAux F remaining
    | none => scanUsedAux F ('S' :: 'E' :: rest)
  | F + 1, _ :: rest => scanUsedAux F rest

/-- `re.findall(r"USE\s+(IRN\d{5}(?:_\w+)?)", content)` of
`detect_entry_irns`, as the list of captured ids in scan order. -/
def scanUsed (content : String) : List String :=
  (scanUsedAux (content.toList.length + 1) content.toList).map String.mk

/-- The directory loop of `detect_entry_irns`: grows `all_irns` from each
filename that starts with `IRN` and ends with `_cleaned.txt` (keeping the
name minus the `.txt` occurrences as the id), and `used_irns` from the scan
of every `.txt` file's content. -/
def detectLoop : List (String × String) → Finset String × Finset String → Finset String × Finset String
  | [], acc => acc
  | (fn, content) :: rest, (alls, used) =>
    let alls := if strStartsWith fn "IRN" && strEndsWith fn "_cleaned.txt" then
        insert (replaceTxt fn) alls
      else alls
    let used := if strEndsWith fn ".txt" then used ∪ (scanUsed content).toFinset else used
    detectLoop rest (alls, used)

/-- `component_loader.detect_entry_irns(component_dir)` over the directory's
`(filename, content)` snapshot: the Python set `all_irns - used_irns`. -/
def detect_entry_irns (files : List (String × String)) : Finset String :=
  let acc := detectLoop files (∅, ∅)
  acc.1 \ acc.2

/-- The filename-derived id of a stored artifact (the name minus its `.txt`
extension), as the spec's ComponentStore indexes artifacts. -/
def stripTxtExt (fn : String) : String :=
  if strEndsWith fn ".txt" then String.mk (fn.toList.take (fn.toList.length - 4)) else fn

/-- Scanned reference targets of the entry type in one text, per the spec's
ReferenceScanner grammar (directive lines, ids normalized to base form). -/
def specScanRefs (text : String) : List String :=
  ((splitLines text).filterMap (fun ln => (parseDirective ln).map Prod.snd)).filter
    (fun i => strStartsWith i "IRN")

/-- Stated from the spec's own words, for comparison with
`detect_entry_irns` (§4.3): all ids of the entry type in the store, minus the
union of every component's scanned reference targets of that type, as a
sorted stable sequence. -/
def specDetectEntries (files : List (String × String)) : List String :=
  let allEntries := ((files.map (fun p => stripTxtExt p.1)).filter
    (fun i => strStartsWith i "IRN")).dedup
  let referenced := (files.map (fun p => specScanRefs p.2)).flatten
  (allEntries.filter (fun i => !referenced.contains i)).insertionSort (· ≤ ·)

/-- Association lookup in the call tree. -/
def lookupChildren : List (String × List String) → String → Option (List String)
  | [], _ => none
  | (k, v) :: rest, key => if k = key then some v else lookupChildren rest key

/-- Python `call_tree.get(node, [])`. -/
def treeGet (g : List (String × List String)) (node : String) : List String :=
  (lookupChildren g node).getD []

mutual
/-- `log_call_tree.walk_tree`, fuel-indexed (`none` = fuel exhausted, i.e.
the recursion does not come back): emits `prefix + node`, then every child's
subtree in order.  The source computes a `connector` but never uses it, and
it tracks no path: the walk descends into every child unconditionally. -/
def walk_tree (g : List (String × List String)) : Nat → String → String → Option (List String)
  | 0, _, _ => none
  | F + 1, node, pfx =>
    (walkChildren g F pfx (treeGet g node)).map (fun ls => (pfx ++ node) :: ls)
termination_by F _node _pfx => (F, 0)

/-- The `for i, child in enumerate(children)` loop of `walk_tree`: the last
child extends the prefix with four blanks, an earlier child with `"│   "`. -/
def walkChildren (g : List (String × List String)) : Nat → String → List String → Option (List String)
  | _, _, [] => some []
  | F, pfx, [c] => walk_tree g F c (pfx ++ "    ")
  | F, pfx, c :: c2 :: rest =>
    (walk_tree g F c (pfx ++ "│   ")).bind fun ls =>
      (walkChildren g F pfx (c2 :: rest)).map fun more => ls ++ more
termination_by F _pfx cs => (F, cs.length)
end

/-- A call graph with a cycle reachable from the root `R`. -/
def cycGraph : List (String × List String) := [("R", ["A"]), ("A", ["A"])]

/-- A small acyclic call graph, for instantiating the termination theorem. -/
def ackGraph : List (String × List String) := [("R", ["A", "B"]), ("A", ["B"])]

/-- A rank that decreases along every edge of `ackGraph`. -/
def rankOf (s : String) : Nat := if s = "R" then 2 else if s = "A" then 1 else 0

/-- Entry-detection counterexample directory: one entry-type artifact whose
name lacks the `_cleaned` suffix and that no text references. -/
def files5 : List (String × String) := [("IRN00001.txt", "")]

/-! ## Helper lemmas -/

/-- A stripped line has no leading whitespace left, so the indentation group
the directive regex captures from it is always empty. -/
theorem takeWhile_pyStripL (l : List Char) : (pyStripL l).takeWhile pyIsSpace = [] := by
  have h1 : pyStripL l = List.rdropWhile pyIsSpace (l.dropWhile pyIsSpace) := by
    simp [pyStripL, List.rdropWhile]
  rw [h1]
  rcases hr : List.rdropWhile pyIsSpace (l.dropWhile pyIsSpace) with _ | ⟨c, t⟩
  · simp
  · obtain ⟨t2, ht⟩ := List.rdropWhile_prefix pyIsSpace (l.dropWhile pyIsSpace)
    rw [hr] at ht
    have hm : l.dropWhile pyIsSpace = c :: (t ++ t2) := by
      rw [← ht]; simp
    have hnot := List.head_dropWhile_not pyIsSpace l (by simp [hm])
    simp only [hm, List.head_cons] at hnot
    simp [List.takeWhile_cons, hnot]

/-! ## The claims -/

/-- Claim C2: within one chunk build, a directive whose target id is already
in the chunk's visited set contributes exactly one `[Skipped duplicate: id]`
marker line in place of the directive — the call-tree edge is still recorded,
the visited set is unchanged, and processing continues with the remaining
lines, so no second expansion of that id's body occurs. -/
theorem C2_duplicate_reference_skipped (store : Store) (F : Nat) (st st1 : StreamerState)
    (line : String) (rest : List String) (parent : String) (v v1 : Finset String)
    (ind comp : String) (out : List String)
    (hp : parseDirective line = some (ind, comp)) (hv : comp ∈ v)
    (hrest : run store F (.embed { st with call_tree := add_to_call_tree st.call_tree parent comp } rest parent v) = some (.embed st1 v1 out)) :
    run store (F + 1) (.embed st (line :: rest) parent v) =
      some (.embed st1 v1 ((ind ++ "# [Skipped duplicate: " ++ comp ++ "]") :: out)) := by
  simp [run, hp, hv, hrest]

/-- Witness for C2 at a concrete duplicate reference. -/
theorem C2_duplicate_reference_skipped_witness :
    run [] 2 (.embed initState ["USE MRN10001"] "IRN00001" {"MRN10001"}) =
      some (.embed ⟨∅, [("IRN00001", ["MRN10001"])], []⟩ {"MRN10001"}
        [("" ++ "# [Skipped duplicate: " ++ "MRN10001" ++ "]")]) :=
  C2_duplicate_reference_skipped [] 1 initState ⟨∅, [("IRN00001", ["MRN10001"])], []⟩
    "USE MRN10001" [] "IRN00001" {"MRN10001"} {"MRN10001"} "" "MRN10001" []
    (by decide) (by decide) (by decide)

/-- Claim C9: triggering a chunk build for an entry id that this run has
already processed is a no-op — the state (visited set, call graph, output
directory) is returned unchanged and no chunk path is produced. -/
theorem C9_repeat_root_build_noop (store : Store) (F : Nat) (st : StreamerState)
    (irnId : String) (h : irnId ∈ st.visited_irns) :
    run store (F + 1) (.stream st irnId) = some (.stream st none) := by
  simp [run, h]

/-- Witness for C9 at a concrete already-processed entry. -/
theorem C9_repeat_root_build_noop_witness :
    run [] 1 (.stream ⟨{"IRN00001"}, [], []⟩ "IRN00001") =
      some (.stream ⟨{"IRN00001"}, [], []⟩ none) :=
  C9_repeat_root_build_noop [] 0 ⟨{"IRN00001"}, [], []⟩ "IRN00001" (by decide)

/-- Claim C10: the root build marks the root processed before fetching it, so
a build whose root fetch fails returns `None` and writes nothing, yet leaves
the id marked, and any later build of the same id is skipped as a no-op
instead of retried. -/
theorem C10_failed_root_build_not_retried (store : Store) (F F2 : Nat)
    (st : StreamerState) (irnId : String)
    (h1 : irnId ∉ st.visited_irns) (h2 : loaderGet store irnId = none) :
    run store (F + 1) (.stream st irnId) =
      some (.stream { st with visited_irns := insert irnId st.visited_irns } none) ∧
    run store (F2 + 1) (.stream { st with visited_irns := insert irnId st.visited_irns } irnId) =
      some (.stream { st with visited_irns := insert irnId st.visited_irns } none) := by
  refine ⟨by simp [run, h1, h2], ?_⟩
  simp [run]

/-- Witness for C10 at a concrete missing root over the empty store. -/
theorem C10_failed_root_build_not_retried_witness :
    run [] 1 (.stream initState "IRN00001") =
      some (.stream { initState with visited_irns := insert "IRN00001" initState.visited_irns } none) ∧
    run [] 1 (.stream { initState with visited_irns := insert "IRN00001" initState.visited_irns } "IRN00001") =
      some (.stream { initState with visited_irns := insert "IRN00001" initState.visited_irns } none) :=
  C10_failed_root_build_not_retried [] 0 0 initState "IRN00001" (by decide) (by decide)

/-- Claim C7: a missing referenced component is non-fatal and localized — the
directive is replaced by a `[Missing component: id]` marker line and the walk
continues with the remaining lines (first conjunct, for every store, state
and line position), and on the concrete Scenario A store the chunk artifact
for `IRN00001` is still written, containing `line1`, the marker and `line2`
in that order (second conjunct). -/
theorem C7_missing_component_localized :
    (∀ (store : Store) (F : Nat) (st st1 : StreamerState) (line : String)
      (rest : List String) (parent : String) (v v1 : Finset String) (ind comp : String)
      (out : List String),
      parseDirective line = some (ind, comp) → comp ∉ v → loaderGet store comp = none →
      run store F (.embed { st with call_tree := add_to_call_tree st.call_tree parent comp } rest parent (insert comp v)) = some (.embed st1 v1 out) →
      run store (F + 1) (.embed st (line :: rest) parent v) =
        some (.embed st1 v1 ((ind ++ "# [Missing component: " ++ comp ++ "]") :: out))) ∧
    chunkLines storeA "IRN00001" = some ["# Start of IRN: IRN00001", "line1",
      "# [Missing component: MRN10001]", "line2", "# End of IRN: IRN00001"] := by
  constructor
  · intro store F st st1 line rest parent v v1 ind comp out hp hv hget hrest
    simp [run, hp, hv, hget, hrest]
  · decide

/-- Claim C4 (counterexample): on the Scenario B store the materialized chunk
for `IRN00001` is not the five spec lines inside the chunk framing — the code
emits the recursive expansion of `MRN10001`'s text a second time after the
end marker. -/
theorem C4_scenario_b_cex :
    chunkLines storeB "IRN00001" ≠
      some ["# Start of IRN: IRN00001", "a", "# Start of MRN10001", "x",
        "# End of MRN10001", "b", "# End of IRN: IRN00001"] := by decide

/-- Claim C4 (amended): on the Scenario B store the chunk body is `a`, the
start marker, `x`, the end marker, then `x` again (the recursive expansion of
the component's text, emitted after the marker-framed raw body), then `b`. -/
theorem C4_scenario_b_actual :
    chunkLines storeB "IRN00001" =
      some ["# Start of IRN: IRN00001", "a", "# Start of MRN10001", "x",
        "# End of MRN10001", "x", "b", "# End of IRN: IRN00001"] := by decide

/-- Claim C6: the scanner matches its regex against the *stripped* line, so
the captured indentation group is empty for every directive (first conjunct);
consequently, on a store whose directive line is indented by two spaces, the
inlined block is emitted with no leading whitespace at all (second conjunct)
— the indentation the claim requires is lost. -/
theorem C6_indentation_always_empty :
    (∀ (line ind comp : String), parseDirective line = some (ind, comp) → ind = "") ∧
    chunkLines storeInd "IRN00001" =
      some ["# Start of IRN: IRN00001", "a", "# Start of MRN10001", "x",
        "# End of MRN10001", "x", "b", "# End of IRN: IRN00001"] := by
  constructor
  · intro line ind comp h
    have hw : (pyStripL line.toList).takeWhile pyIsSpace = [] := takeWhile_pyStripL _
    simp only [parseDirective, hw] at h
    split at h
    · split at h
      · split at h
        · split at h
          · simp only [Option.map_eq_some'] at h
            obtain ⟨b, _, hb⟩ := h
            cases hb
            rfl
          · exact absurd h (by simp)
        · exact absurd h (by simp)
      · exact absurd h (by simp)
    · exact absurd h (by simp)
  · decide

/-- Claim C1 (counterexample): on the Scenario C store, the chunk built for
`IRN00001` does contain the text of the nested entry `IRN00002`
(`NESTEDBODY`), not only the streamed-separately placeholder line. -/
theorem C1_nested_entry_text_inlined_cex :
    "NESTEDBODY" ∈ (chunkLines storeC "IRN00001").getD [] := by decide

/-- Claim C1 (amended): a directive targeting a not-yet-produced entry-type
id `comp` contributes `comp`'s *raw stripped text* framed by start/end
markers, followed by the streamed-separately placeholder — no recursive
inline expansion of `comp`'s text happens in this chunk — and the
independent top-level build for `comp` is triggered, its state carried into
the rest of the walk (first conjunct).  On the Scenario C store two
artifacts result: `IRN00001`'s chunk holds `IRN00002`'s raw line plus the
placeholder, and `IRN00002`'s own chunk holds its fully expanded content
(second and third conjuncts). -/
theorem C1_nested_entry_raw_plus_marker :
    (∀ (store : Store) (F : Nat) (st st1 st2 : StreamerState) (line : String)
      (rest : List String) (parent : String) (v v2 : Finset String) (ind comp : String)
      (compText : String) (r : Option String) (out : List String),
      parseDirective line = some (ind, comp) → comp ∉ v →
      loaderGet store comp = some compText → isIrnId comp = true →
      comp ∉ st.visited_irns →
      run store F (.stream { st with call_tree := add_to_call_tree st.call_tree parent comp } comp) = some (.stream st1 r) →
      run store F (.embed st1 rest parent (insert comp v)) = some (.embed st2 v2 out) →
      run store (F + 1) (.embed st (line :: rest) parent v) =
        some (.embed st2 v2
          ((ind ++ "# Start of " ++ comp) ::
            (splitLines (pyStrip compText)).map (fun l => ind ++ l) ++
            [ind ++ "# End of " ++ comp] ++
            [ind ++ "# [Nested IRN " ++ comp ++ " streamed separately]"] ++ out))) ∧
    chunkLines storeC "IRN00001" =
      some ["# Start of IRN: IRN00001", "# Start of IRN00002", "NESTEDBODY",
        "# End of IRN00002", "# [Nested IRN IRN00002 streamed separately]",
        "# End of IRN: IRN00001"] ∧
    chunkLines storeC "IRN00002" =
      some ["# Start of IRN: IRN00002", "NESTEDBODY", "# End of IRN: IRN00002"] := by
    refine ⟨?_, by decide, by decide⟩
    intro store F st st1 st2 line rest parent v v2 ind comp compText r out
      hp hv hget hirn hnp hstream hrest
    simp [run, hp, hv, hget, hirn, hnp, hstream, hrest]

/-- Membership in the `all_irns` accumulator of the `detect_entry_irns` loop:
exactly the ids derived from filenames that start with `IRN` and end with
`_cleaned.txt`. -/
theorem detectLoop_fst_mem (files : List (String × String)) :
    ∀ (alls used : Finset String) (x : String),
      x ∈ (detectLoop files (alls, used)).1 ↔
        x ∈ alls ∨ ∃ p ∈ files,
          (strStartsWith p.1 "IRN" && strEndsWith p.1 "_cleaned.txt") = true ∧
          x = replaceTxt p.1 := by
  induction files with
  | nil => intro alls used x; simp [detectLoop]
  | cons hd tl ih =>
    intro alls used x
    obtain ⟨fn, content⟩ := hd
    by_cases h : (strStartsWith fn "IRN" && strEndsWith fn "_cleaned.txt") = true
    · have h2 := h
      rw [Bool.and_eq_true] at h2
      simp [detectLoop, h, ih, Finset.mem_insert]
      tauto
    · have h2 := h
      rw [Bool.and_eq_true] at h2
      simp [detectLoop, h, ih]
      tauto

/-- Membership in the `used_irns` accumulator of the `detect_entry_irns`
loop: exactly the scanned reference targets of all `.txt` files. -/
theorem detectLoop_snd_mem (files : List (String × String)) :
    ∀ (alls used : Finset String) (x : String),
      x ∈ (detectLoop files (alls, used)).2 ↔
        x ∈ used ∨ ∃ p ∈ files, strEndsWith p.1 ".txt" = true ∧ x ∈ scanUsed p.2 := by
  induction files with
  | nil => intro alls used x; simp [detectLoop]
  | cons hd tl ih =>
    intro alls used x
    obtain ⟨fn, content⟩ := hd
    by_cases h : strEndsWith fn ".txt" = true
    · simp [detectLoop, h, ih, Finset.mem_union, List.mem_toFinset]
      tauto
    · simp [detectLoop, h, ih]

/-- Claim C5 (counterexample): on a store holding the single unreferenced
entry-type artifact `IRN00001.txt`, the spec's described computation yields
the sequence `[IRN00001]`, but `detect_entry_irns` yields the empty set — it
only considers filenames ending in `_cleaned.txt`, keeps the `_cleaned`
suffix in the id, and returns an unordered set rather than a sorted
sequence. -/
theorem C5_detect_entries_cex :
    specDetectEntries files5 = ["IRN00001"] ∧ detect_entry_irns files5 = ∅ := by decide

/-- Claim C5 (amended): for every store, an id is in the result of
`detect_entry_irns` exactly when some filename starting with `IRN` and
ending with `_cleaned.txt` derives it (the filename minus its `.txt`
occurrences, `_cleaned` suffix kept) and it is not a literally scanned
reference target (pattern `USE\s+IRN\d{5}(_\w+)?`, case-sensitive, suffix
kept) of any `.txt` file's content; the result is an unordered set, not a
sorted sequence. -/
theorem C5_detect_entries_characterization (files : List (String × String)) (x : String) :
    x ∈ detect_entry_irns files ↔
      ((∃ p ∈ files,
          (strStartsWith p.1 "IRN" && strEndsWith p.1 "_cleaned.txt") = true ∧
          x = replaceTxt p.1) ∧
       ¬ ∃ p ∈ files, strEndsWith p.1 ".txt" = true ∧ x ∈ scanUsed p.2) := by
  simp [detect_entry_irns, Finset.mem_sdiff, detectLoop_fst_mem, detectLoop_snd_mem]

/-- A successful call-tree lookup returns an entry of the list. -/
theorem lookupChildren_mem :
    ∀ (g : List (String × List String)) (k : String) (v : List String),
      lookupChildren g k = some v → (k, v) ∈ g := by
  intro g
  induction g with
  | nil => intro k v h; simp [lookupChildren] at h
  | cons hd tl ih =>
    intro k v h
    obtain ⟨k0, v0⟩ := hd
    by_cases he : k0 = k
    · subst he
      simp [lookupChildren] at h
      subst h
      exact List.mem_cons_self _ _
    · simp [lookupChildren, he] at h
      exact List.mem_cons_of_mem _ (ih k v h)

/-- On the cyclic call graph, the walk starting at the self-looping node `A`
exhausts any amount of fuel. -/
theorem walkA_none : ∀ (F : Nat) (pfx : String), walk_tree cycGraph F "A" pfx = none := by
  intro F
  induction F with
  | zero => intro pfx; simp [walk_tree]
  | succ F ih =>
    intro pfx
    have ht : treeGet cycGraph "A" = ["A"] := by decide
    simp [walk_tree, ht, walkChildren, ih]

/-- On the cyclic call graph, the walk from the root `R` exhausts any fuel. -/
theorem walkR_none (F : Nat) : walk_tree cycGraph F "R" "" = none := by
  cases F with
  | zero => simp [walk_tree]
  | succ F =>
    have ht : treeGet cycGraph "R" = ["A"] := by decide
    simp [walk_tree, ht, walkChildren, walkA_none]

/-- Claim C8 (counterexample): on the finite call graph `R → A → A` the
rendering walk from the root `R` completes under no amount of fuel — it
tracks no path and emits no cycle marker, so a cycle reachable from a root
makes rendering non-terminating. -/
theorem C8_cycle_walk_never_terminates_cex :
    ¬ ∃ F, (walk_tree cycGraph F "R" "").isSome = true := by
  rintro ⟨F, hF⟩
  rw [walkR_none F] at hF
  simp at hF

/-- Claim C8 (amended): the walk descends into every child unconditionally,
with no path tracking and no cycle marker; it terminates exactly on the
acyclic part of the graph — whenever a rank function decreases along every
recorded edge, fuel exceeding the start node's rank completes the walk —
while a cycle reachable from a root defeats every amount of fuel (see the
counterexample). -/
theorem C8_walk_terminates_with_rank (g : List (String × List String))
    (rank : String → Nat)
    (hrank : ∀ pr ∈ g, ∀ c ∈ pr.2, rank c < rank pr.1) :
    ∀ (F : Nat) (node pfx : String), rank node < F →
      (walk_tree g F node pfx).isSome = true := by
  intro F
  induction F with
  | zero => intro node pfx h; omega
  | succ F ih =>
    intro node pfx hlt
    have hch : ∀ c ∈ treeGet g node, rank c < F := by
      intro c hc
      rcases hl : lookupChildren g node with _ | cs
      · rw [treeGet, hl] at hc; simp at hc
      · rw [treeGet, hl] at hc
        simp at hc
        have := hrank (node, cs) (lookupChildren_mem g node cs hl) c hc
        simp at this
        omega
    have hwc : ∀ (cs : List String), (∀ c ∈ cs, rank c < F) → ∀ pfx2,
        (walkChildren g F pfx2 cs).isSome = true := by
      intro cs
      induction cs with
      | nil => intro _ pfx2; simp [walkChildren]
      | cons c cs2 ihc =>
        intro hc pfx2
        cases cs2 with
        | nil =>
          have := ih c (pfx2 ++ "    ") (hc c (by simp))
          simpa [walkChildren] using this
        | cons c2 cs3 =>
          have h1 := ih c (pfx2 ++ "│   ") (hc c (by simp))
          have h2 := ihc (fun d hd => hc d (by simp [hd])) pfx2
          obtain ⟨ls, hls⟩ := Option.isSome_iff_exists.mp h1
          obtain ⟨ms, hms⟩ := Option.isSome_iff_exists.mp h2
          simp [walkChildren, hls, hms]
    have := hwc (treeGet g node) hch pfx
    obtain ⟨ls, hls⟩ := Option.isSome_iff_exists.mp this
    simp [walk_tree, hls]

/-- Witness for the amended C8 theorem on a concrete acyclic graph with an
explicit rank. -/
theorem C8_walk_terminates_with_rank_witness :
    (∀ pr ∈ ackGraph, ∀ c ∈ pr.2, rankOf c < rankOf pr.1) ∧
    (walk_tree ackGraph 3 "R" "").isSome = true :=
  ⟨by decide, C8_walk_terminates_with_rank ackGraph rankOf (by decide) 3 "R" "" (by decide)⟩

/-- A successful store lookup returns an entry of the directory. -/
theorem lookupStore_mem :
    ∀ (store : Store) (k v : String), lookupStore store k = some v → (k, v) ∈ store := by
  intro store
  induction store with
  | nil => intro k v h; simp [lookupStore] at h
  | cons hd tl ih =>
    intro k v h
    obtain ⟨k0, v0⟩ := hd
    by_cases he : k0 = k
    · subst he
      simp [lookupStore] at h
      subst h
      exact List.mem_cons_self _ _
    · simp [lookupStore, he] at h
      exact List.mem_cons_of_mem _ (ih k v h)

/-- Every stored text has at most `maxLines store` lines. -/
theorem mem_maxLines (store : Store) :
    ∀ (k t : String), (k, t) ∈ store → (splitLines t).length ≤ maxLines store := by
  induction store with
  | nil => intro k t h; simp at h
  | cons hd tl ih =>
    intro k t h
    rcases List.mem_cons.mp h with h1 | h1
    · subst h1
      simp [maxLines]
    · calc (splitLines t).length ≤ maxLines tl := ih k t h1
        _ ≤ maxLines (hd :: tl) := by simp [maxLines]

theorem toUpper_fixed_letters :
    Char.toUpper 'M' = 'M' ∧ Char.toUpper 'R' = 'R' ∧ Char.toUpper 'N' = 'N' ∧
    Char.toUpper 'T' = 'T' ∧ Char.toUpper 'P' = 'P' ∧ Char.toUpper 'C' = 'C' ∧
    Char.toUpper 'D' = 'D' ∧ Char.toUpper 'S' = 'S' ∧ Char.toUpper 'I' = 'I' := by decide

theorem typeCodes_contains_each :
    typeCodes.contains ['M','R','N'] = true ∧ typeCodes.contains ['T','R','N'] = true ∧
    typeCodes.contains ['P','R','N'] = true ∧ typeCodes.contains ['C','R','N'] = true ∧
    typeCodes.contains ['D','R','N'] = true ∧ typeCodes.contains ['S','R','N'] = true ∧
    typeCodes.contains ['I','R','R'] = true ∧ typeCodes.contains ['M','R','R'] = true ∧
    typeCodes.contains ['I','R','N'] = true := by decide

/-- The base id `parseId` extracts is itself a fixed point of `parseId`:
its three letters are already upper case and its five digits are digits. -/
theorem parseId_idem : ∀ (l b : List Char), parseId l = some b → parseId b = some b := by
  intro l b h
  simp only [parseId] at h
  split at h
  · split_ifs at h with hcond
    simp only [Option.some.injEq] at h
    subst h
    simp only [Bool.and_eq_true, and_assoc] at hcond
    obtain ⟨hcode, h1, h2, h3, h4, h5⟩ := hcond
    rename_i c1 c2 c3 d1 d2 d3 d4 d5 t
    have hmem : [c1.toUpper, c2.toUpper, c3.toUpper] ∈ typeCodes := by
      simpa [List.contains, List.elem_iff] using hcode
    simp only [typeCodes, List.mem_cons, List.not_mem_nil, or_false] at hmem
    obtain ⟨uM, uR, uN, uT, uP, uC, uD, uS, uI⟩ := toUpper_fixed_letters
    obtain ⟨k1, k2, k3, k4, k5, k6, k7, k8, k9⟩ := typeCodes_contains_each
    rcases hmem with h|h|h|h|h|h|h|h|h <;>
    · rw [h]
      simp [parseId, h1, h2, h3, h4, h5, uM, uR, uN, uT, uP, uC, uD, uS, uI,
        k1, k2, k3, k4, k5, k6, k7, k8, k9]
      all_goals decide
  · simp at h

/-- A directive's component id is already in normalized base form. -/
theorem parseDirective_base (line ind comp : String)
    (h : parseDirective line = some (ind, comp)) :
    parseId comp.toList = some comp.toList := by
  simp only [parseDirective] at h
  split at h
  · split at h
    · split at h
      · split at h
        · simp only [Option.map_eq_some'] at h
          obtain ⟨b, hb, hpair⟩ := h
          cases hpair
          simpa using parseId_idem _ b hb
        · exact absurd h (by simp)
      · exact absurd h (by simp)
    · exact absurd h (by simp)
  · exact absurd h (by simp)

/-- Rebuilding a string from its characters is the identity. -/
theorem string_mk_toList (s : String) : String.mk s.toList = s := rfl

theorem loaderGet_store_pair (store : Store) (cid txt : String)
    (h : loaderGet store cid = some txt) : ∃ key, (key, txt) ∈ store := by
  unfold loaderGet at h
  split at h
  · simp at h
  · exact ⟨_, lookupStore_mem _ _ _ h⟩

/-- Fetching a normalized id succeeds exactly by looking up that id, so a
successful fetch puts the id itself in the store. -/
theorem loaderGet_self_mem (store : Store) (comp txt : String)
    (hbase : parseId comp.toList = some comp.toList)
    (h : loaderGet store comp = some txt) :
    comp ∈ storeIds store ∧ (comp, txt) ∈ store := by
  unfold loaderGet at h
  simp only [hbase, string_mk_toList] at h
  have hmem := lookupStore_mem _ _ _ h
  refine ⟨?_, hmem⟩
  simp only [storeIds, List.mem_toFinset, List.mem_map]
  exact ⟨(comp, txt), hmem, rfl⟩

theorem card_sdiff_insert_lt (S v : Finset String) (comp : String)
    (hS : comp ∈ S) (hv : comp ∉ v) :
    (S \ insert comp v).card < (S \ v).card := by
  apply Finset.card_lt_card
  rw [Finset.ssubset_iff_of_subset
    (Finset.sdiff_subset_sdiff (Finset.Subset.refl S) (Finset.subset_insert comp v))]
  exact ⟨comp, Finset.mem_sdiff.mpr ⟨hS, hv⟩, by simp⟩

theorem card_sdiff_anti (S : Finset String) {A B : Finset String} (h : A ⊆ B) :
    (S \ B).card ≤ (S \ A).card :=
  Finset.card_le_card (Finset.sdiff_subset_sdiff (Finset.Subset.refl S) h)

theorem card_sdiff_le_card (S A : Finset String) : (S \ A).card ≤ S.card :=
  Finset.card_le_card (Finset.sdiff_subset)

theorem measure_step (a1 a y n K lenL F : Nat)
    (ha : a1 + 1 ≤ a) (hy : y ≤ n) (hl : lenL < K)
    (hm : a * (n + 1) * K ≤ F) :
    (a1 * (n + 1) + y) * K + lenL < F := by
  have h1 : (a1 * (n + 1) + y) * K ≤ (a1 * (n + 1) + n) * K :=
    Nat.mul_le_mul_right _ (by omega)
  have h2 : (a1 * (n + 1) + n + 1) * K ≤ a * (n + 1) * K := by
    have h3 : a1 * (n + 1) + n + 1 ≤ a * (n + 1) := by nlinarith
    exact Nat.mul_le_mul_right _ h3
  have h4 : (a1 * (n + 1) + n + 1) * K = (a1 * (n + 1) + n) * K + K := by ring
  omega

theorem measure_stream_call (a b n K lenR F : Nat)
    (hm : (a * (n + 1) + b) * K + (lenR + 1) < F + 1) :
    a * (n + 1) * K < F := by
  have h1 : a * (n + 1) * K ≤ (a * (n + 1) + b) * K := Nat.mul_le_mul_right _ (by omega)
  omega

theorem measure_after_call (a1 a b1 b n K lenR F : Nat)
    (ha : a1 ≤ a) (hb : b1 + 1 ≤ b)
    (hm : (a * (n + 1) + b) * K + (lenR + 1) < F + 1) :
    (a1 * (n + 1) + b1) * K + lenR < F := by
  have h1 : (a1 * (n + 1) + b1 + 1) * K ≤ (a * (n + 1) + b) * K :=
    Nat.mul_le_mul_right _ (by nlinarith)
  have h2 : (a1 * (n + 1) + b1 + 1) * K = (a1 * (n + 1) + b1) * K + K := by ring
  omega

theorem measure_nested (a b1 b n K ell lenR F : Nat)
    (hb : b1 + 1 ≤ b) (hl : ell < K)
    (hm : (a * (n + 1) + b) * K + (lenR + 1) < F + 1) :
    (a * (n + 1) + b1) * K + ell < F := by
  have h2 : (a * (n + 1) + b1 + 1) * K ≤ (a * (n + 1) + b) * K :=
    Nat.mul_le_mul_right _ (by omega)
  have h3 : (a * (n + 1) + b1 + 1) * K = (a * (n + 1) + b1) * K + K := by ring
  omega

theorem measure_top (a1 y n K ell : Nat)
    (ha1 : a1 ≤ n) (hy : y ≤ n) (hl : ell < K) :
    (a1 * (n + 1) + y) * K + ell < (n + 1) * (n + 1) * K := by
  have h1 : a1 * (n + 1) + y + 1 ≤ (n + 1) * (n + 1) := by nlinarith
  have h2 : (a1 * (n + 1) + y + 1) * K ≤ (n + 1) * (n + 1) * K := Nat.mul_le_mul_right _ h1
  have h3 : (a1 * (n + 1) + y + 1) * K = (a1 * (n + 1) + y) * K + K := by ring
  omega

/-- Sufficiency of the fuel measures, by induction on fuel: a `stream` job
whose id resolves only to itself completes under `measS` fuel, and an `embed`
job completes under `measE` fuel; both only ever grow the processed-roots
set, and `embed` only grows the per-chunk visited set.  The measures shrink
because every inline expansion adds a store id to the visited set and every
nested top-level build adds a store id to the processed-roots set. -/
theorem run_total (store : Store) : ∀ F : Nat,
    (∀ (st : StreamerState) (irnId : String),
      (∀ txt, loaderGet store irnId = some txt → irnId ∈ storeIds store) →
      measS store st.visited_irns < F →
      ∃ st1 r, run store F (.stream st irnId) = some (.stream st1 r) ∧
        st.visited_irns ⊆ st1.visited_irns) ∧
    (∀ (st : StreamerState) (lines : List String) (parent : String) (v : Finset String),
      measE store st.visited_irns v lines < F →
      ∃ st1 v1 out, run store F (.embed st lines parent v) = some (.embed st1 v1 out) ∧
        st.visited_irns ⊆ st1.visited_irns ∧ v ⊆ v1) := by
  intro F
  induction F with
  | zero =>
    constructor
    · intro st irnId _ hm; exact absurd hm (by omega)
    · intro st lines parent v hm; exact absurd hm (by omega)
  | succ F ih =>
    constructor
    · -- the stream_irn part
      intro st irnId hkey hm
      by_cases hvis : irnId ∈ st.visited_irns
      · exact ⟨st, none, by simp [run, hvis], Finset.Subset.refl _⟩
      · rcases hget : loaderGet store irnId with _ | txt
        · exact ⟨⟨insert irnId st.visited_irns, st.call_tree, st.artifacts⟩, none,
            by simp [run, hvis, hget], Finset.subset_insert _ _⟩
        · have hS : irnId ∈ storeIds store := hkey txt hget
          obtain ⟨key, hpair⟩ := loaderGet_store_pair store irnId txt hget
          have hlen : (splitLines txt).length < fuelK store := by
            have := mem_maxLines store key txt hpair
            simp only [fuelK]; omega
          have hshrink : (storeIds store \ insert irnId st.visited_irns).card + 1
              ≤ (storeIds store \ st.visited_irns).card := by
            have := card_sdiff_insert_lt (storeIds store) st.visited_irns irnId hS hvis
            omega
          have hm2 : measE store (insert irnId st.visited_irns) ∅ (splitLines txt) < F := by
            simp only [measE]
            exact measure_step _ _ _ _ _ _ _ hshrink
              (card_sdiff_le_card _ _) hlen (by simp only [measS] at hm; omega)
          obtain ⟨st2, v2, out, hrun, hsub2, _⟩ :=
            ih.2 ⟨insert irnId st.visited_irns, st.call_tree, st.artifacts⟩
              (splitLines txt) irnId ∅ hm2
          refine ⟨⟨st2.visited_irns, st2.call_tree,
              writeArtifact st2.artifacts (irnId ++ ".txt")
                (String.intercalate "\n"
                  (("# Start of IRN: " ++ irnId) :: out ++ ["# End of IRN: " ++ irnId]))⟩,
            some (irnId ++ ".txt"), ?_, ?_⟩
          · simp [run, hvis, hget, hrun]
          · exact Finset.Subset.trans (Finset.subset_insert _ _) hsub2
    · -- the _embed_all_nested part
      intro st lines parent v hm
      match lines with
      | [] => exact ⟨st, v, [], by simp [run], Finset.Subset.refl _, Finset.Subset.refl _⟩
      | line :: rest =>
        rcases hp : parseDirective line with _ | ⟨ind, comp⟩
        · -- ordinary passthrough line
          have hm2 : measE store st.visited_irns v rest < F := by
            simp only [measE, List.length_cons] at hm ⊢; omega
          obtain ⟨st1, v1, out, hrun, hsub, hvs⟩ := ih.2 st rest parent v hm2
          exact ⟨st1, v1, line :: out, by simp [run, hp, hrun], hsub, hvs⟩
        · by_cases hv : comp ∈ v
          · -- duplicate marker
            have hm2 : measE store st.visited_irns v rest < F := by
              simp only [measE, List.length_cons] at hm ⊢; omega
            obtain ⟨st1, v1, out, hrun, hsub, hvs⟩ :=
              ih.2 ⟨st.visited_irns, add_to_call_tree st.call_tree parent comp, st.artifacts⟩
                rest parent v hm2
            exact ⟨st1, v1, (ind ++ "# [Skipped duplicate: " ++ comp ++ "]") :: out,
              by simp [run, hp, hv, hrun], hsub, hvs⟩
          · rcases hget : loaderGet store comp with _ | compText
            · -- missing component marker
              have hm2 : measE store st.visited_irns (insert comp v) rest < F := by
                simp only [measE, List.length_cons] at hm ⊢
                have hb : (storeIds store \ insert comp v).card
                    ≤ (storeIds store \ v).card :=
                  card_sdiff_anti _ (Finset.subset_insert _ _)
                have h1 : ((storeIds store \ st.visited_irns).card * ((storeIds store).card + 1)
                      + (storeIds store \ insert comp v).card) * fuelK store
                    ≤ ((storeIds store \ st.visited_irns).card * ((storeIds store).card + 1)
                      + (storeIds store \ v).card) * fuelK store :=
                  Nat.mul_le_mul_right _ (by omega)
                omega
              obtain ⟨st1, v1, out, hrun, hsub, hvs⟩ :=
                ih.2 ⟨st.visited_irns, add_to_call_tree st.call_tree parent comp, st.artifacts⟩
                  rest parent (insert comp v) hm2
              exact ⟨st1, v1, (ind ++ "# [Missing component: " ++ comp ++ "]") :: out,
                by simp [run, hp, hv, hget, hrun], hsub,
                Finset.Subset.trans (Finset.subset_insert _ _) hvs⟩
            · -- component found
              have hbase := parseDirective_base line ind comp hp
              obtain ⟨hScomp, hpairc⟩ := loaderGet_self_mem store comp compText hbase hget
              have hbshrink : (storeIds store \ insert comp v).card + 1
                  ≤ (storeIds store \ v).card := by
                have := card_sdiff_insert_lt (storeIds store) v comp hScomp hv
                omega
              have hlenc : (splitLines compText).length < fuelK store := by
                have := mem_maxLines store comp compText hpairc
                simp only [fuelK]; omega
              by_cases hirnc : isIrnId comp ∧ comp ∉ st.visited_irns
              · -- nested entry: separate top-level build plus placeholder
                obtain ⟨hirn, hnp⟩ := hirnc
                have hmS : measS store st.visited_irns < F := by
                  simp only [measS]
                  simp only [measE, List.length_cons] at hm
                  exact measure_stream_call _ _ _ _ _ _ hm
                obtain ⟨st1, r, hstream, hsubA⟩ :=
                  ih.1 ⟨st.visited_irns, add_to_call_tree st.call_tree parent comp, st.artifacts⟩
                    comp (fun txt' h' => (loaderGet_self_mem store comp txt' hbase h').1) hmS
                have hm2 : measE store st1.visited_irns (insert comp v) rest < F := by
                  simp only [measE, List.length_cons] at hm ⊢
                  exact measure_after_call _ _ _ _ _ _ _ _
                    (card_sdiff_anti _ hsubA) hbshrink hm
                obtain ⟨st2, v2, out, hrun, hsub2, hvs2⟩ := ih.2 st1 rest parent (insert comp v) hm2
                refine ⟨st2, v2,
                  ((ind ++ "# Start of " ++ comp) ::
                    (splitLines (pyStrip compText)).map (fun l => ind ++ l) ++
                    [ind ++ "# End of " ++ comp]) ++
                    [ind ++ "# [Nested IRN " ++ comp ++ " streamed separately]"] ++ out,
                  ?_, Finset.Subset.trans hsubA hsub2,
                  Finset.Subset.trans (Finset.subset_insert _ _) hvs2⟩
                simp [run, hp, hv, hget, hirn, hnp, hstream, hrun]
              · -- ordinary component: recursive inline expansion
                have hm1 : measE store st.visited_irns (insert comp v) (splitLines compText) < F := by
                  simp only [measE, List.length_cons] at hm ⊢
                  exact measure_nested _ _ _ _ _ _ _ _ hbshrink hlenc hm
                obtain ⟨st1, v1, nested, hrun1, hsubA1, hsubV1⟩ :=
                  ih.2 ⟨st.visited_irns, add_to_call_tree st.call_tree parent comp, st.artifacts⟩
                    (splitLines compText) comp (insert comp v) hm1
                have hm2 : measE store st1.visited_irns v1 rest < F := by
                  simp only [measE, List.length_cons] at hm ⊢
                  have hb1 : (storeIds store \ v1).card + 1 ≤ (storeIds store \ v).card := by
                    have := card_sdiff_anti (storeIds store) hsubV1
                    omega
                  exact measure_after_call _ _ _ _ _ _ _ _
                    (card_sdiff_anti _ hsubA1) hb1 hm
                obtain ⟨st2, v2, out, hrun2, hsubA2, hsubV2⟩ := ih.2 st1 rest parent v1 hm2
                refine ⟨st2, v2,
                  ((ind ++ "# Start of " ++ comp) ::
                    (splitLines (pyStrip compText)).map (fun l => ind ++ l) ++
                    [ind ++ "# End of " ++ comp]) ++
                    nested.map (fun l => ind ++ l) ++ out,
                  ?_, Finset.Subset.trans hsubA1 hsubA2,
                  Finset.Subset.trans (Finset.subset_insert _ _)
                    (Finset.Subset.trans hsubV1 hsubV2)⟩
                simp [run, hp, hv, hget, hirnc, hrun1, hrun2]

/-- Claim C3: for every component store — cyclic reference graphs included —
and every root id, the chunk build terminates: the fuel `fuelBound store`
computed from the store is never exhausted, so `run` returns a result (the
finite line sequence and final state) rather than `none`.  The per-chunk
visited set provides the termination measure: a previously visited id
recurring within one chunk build is never expanded again. -/
theorem C3_chunk_build_terminates (store : Store) (st : StreamerState) (irnId : String) :
    (run store (fuelBound store) (.stream st irnId)).isSome = true := by
  rw [show fuelBound store
      = ((storeIds store).card + 1) * ((storeIds store).card + 1) * fuelK store + 1 from rfl]
  by_cases hvis : irnId ∈ st.visited_irns
  · simp [run, hvis]
  · rcases hget : loaderGet store irnId with _ | txt
    · simp [run, hvis, hget]
    · obtain ⟨key, hpair⟩ := loaderGet_store_pair store irnId txt hget
      have hlen : (splitLines txt).length < fuelK store := by
        have := mem_maxLines store key txt hpair
        simp only [fuelK]; omega
      have hm : measE store (insert irnId st.visited_irns) ∅ (splitLines txt)
          < ((storeIds store).card + 1) * ((storeIds store).card + 1) * fuelK store := by
        simp only [measE]
        exact measure_top _ _ _ _ _ (card_sdiff_le_card _ _) (card_sdiff_le_card _ _) hlen
      obtain ⟨st2, v2, out, hrun, _, _⟩ :=
        (run_total store
          (((storeIds store).card + 1) * ((storeIds store).card + 1) * fuelK store)).2
          ⟨insert irnId st.visited_irns, st.call_tree, st.artifacts⟩ (splitLines txt) irnId ∅ hm
      simp [run, hvis, hget, hrun]
